/-
Verification of the ComfyUI-MimicMotionWrapper node adapter (nodes.py).

Shallow embedding: the numeric routines (log-linear sigma interpolation,
sigma-table resolution) are modelled over the reals; stateful node methods
(MimicMotionSampler.process, MimicMotionDecode.process,
MimicMotionGetPoses.process) are modelled by explicit state passing with
opaque external collaborators (the diffusion pipeline, the pose detector,
the drawing routine, the least-squares fit) taken as function parameters.
Python exceptions are modelled with Except; the order of observable
effects (scheduler installation, precondition asserts, external calls)
follows the source line order.
-/
import Mathlib

open List

/-- Model of `np.linspace a b n`: `n` evenly spaced points from `a` to `b`.
For `n = 1` numpy returns `[a]`, which the formula also gives here because
the step's denominator is zero and division by zero is zero in Lean. -/
noncomputable def linspace (a b : ℝ) (n : ℕ) : List ℝ :=
  (List.range n).map (fun (i : ℕ) => a + (b - a) * (i : ℝ) / ((n : ℝ) - 1))

/-- Model of `np.interp x xs ys` on the list of sample points `xs.zip ys`
(x-coordinates increasing): piecewise-linear interpolation, clamped to the
first/last y-value outside the sampled range. -/
noncomputable def interpPt : List (ℝ × ℝ) → ℝ → ℝ
  | [], _ => 0
  | [(_, y0)], _ => y0
  | (x0, y0) :: (x1, y1) :: rest, x =>
    if x ≤ x0 then y0
    else if x ≤ x1 then y0 + (y1 - y0) * (x - x0) / (x1 - x0)
    else interpPt ((x1, y1) :: rest) x

/-- `loglinear_interp` from nodes.py lines 22-33: put the input's index
positions on an even grid in [0,1], take logs of the reversed (increasing)
sequence, linearly interpolate onto a new even grid of `num_steps` points,
exponentiate and reverse back to decreasing order. -/
noncomputable def loglinear_interp (t_steps : List ℝ) (num_steps : ℕ) : List ℝ :=
  let xs := linspace 0 1 t_steps.length
  let ys := t_steps.reverse.map Real.log
  let new_xs := linspace 0 1 num_steps
  let new_ys := new_xs.map (interpPt (xs.zip ys))
  (new_ys.map Real.exp).reverse

/-- Python slice `l[-(k):]` for `k ≥ 1`: the last `min k (length l)` elements. -/
def takeLast (l : List α) (k : ℕ) : List α := l.drop (l.length - k)

/-- Numpy in-place `l[-1] = v` on a nonempty array. -/
def setLast (l : List α) (v : α) : List α := l.dropLast ++ [v]

/-- The fixed 11-entry align-your-steps sigma table (nodes.py line 217). -/
noncomputable def aysSigmas : List ℝ :=
  [700.00, 54.5, 15.886, 7.977, 4.248, 1.789, 0.981, 0.403, 0.173, 0.034, 0.002]

/-- Sigma-table resolution in MimicMotionSampler.process (lines 267-273):
given the optional scheduler's sigma table, re-interpolate to `steps + 1`
entries when the lengths disagree, keep the last `steps + 1` entries, and
force the final entry to zero; otherwise hand the table through unchanged. -/
noncomputable def resolveSigmas (sig : Option (List ℝ)) (steps : ℕ) : Option (List ℝ) :=
  match sig with
  | none => none
  | some s =>
    if steps + 1 ≠ s.length then
      some (setLast (takeLast (loglinear_interp s (steps + 1)) (steps + 1)) 0)
    else some s

/-- The optional DIFFUSERS_SCHEDULER bundle handed to the sampler: a noise
scheduler object (opaque, type `σ`) and an optional sigma table. -/
structure SchedulerOptions (σ : Type) where
  noise_scheduler : σ
  sigmas : Option (List ℝ)

/-- The shared MIMICPIPE bundle's observable state: its scheduler field. -/
structure MimicPipeline (σ : Type) where
  scheduler : σ

/-- Observable outcome of one MimicMotionSampler.process call: the result,
the pipeline bundle's state after the call, whether the underlying
diffusion pipeline was invoked, and (when it was) the sigma argument it
received. -/
structure SamplerOutput (σ β : Type) where
  outcome : Except String β
  pipeline : MimicPipeline σ
  pipelineCalled : Bool
  sigmasPassed : Option (Option (List ℝ))

/-- MimicMotionSampler.process (lines 253-319), restricted to its
observable control flow: install the override scheduler when one is given
(line 266) or re-install the saved original (line 275), resolve the sigma
table (lines 267-273), assert that the pose count `B` is at least
`context_size` (line 280), and only then invoke the diffusion pipeline
(line 293) with the resolved sigmas. `pipelineFn` is the opaque pipeline. -/
noncomputable def samplerProcess {σ β : Type} (pipe : MimicPipeline σ)
    (opt : Option (SchedulerOptions σ)) (steps B context_size : ℕ)
    (pipelineFn : Option (List ℝ) → β) : SamplerOutput σ β :=
  let original := pipe.scheduler
  let pipe1 : MimicPipeline σ :=
    match opt with
    | some o => { pipe with scheduler := o.noise_scheduler }
    | none => { pipe with scheduler := original }
  let sigmas : Option (List ℝ) :=
    match opt with
    | some o => resolveSigmas o.sigmas steps
    | none => none
  if context_size ≤ B then
    { outcome := Except.ok (pipelineFn sigmas), pipeline := pipe1,
      pipelineCalled := true, sigmasPassed := some sigmas }
  else
    { outcome := Except.error "The number of poses must be greater than the context size",
      pipeline := pipe1, pipelineCalled := false, sigmasPassed := none }

/-- The try/except of MimicMotionDecode.process (lines 341-344): call
`decode_latents` with the requested chunk size; on any exception call it
once more with chunk size 1. Returns the result together with the list of
chunk sizes attempted, in order. -/
def decodeAttempts {ε α : Type} (decode_latents : ℕ → Except ε α) (n : ℕ) :
    Except ε α × List ℕ :=
  match decode_latents n with
  | Except.ok fr => (Except.ok fr, [n])
  | Except.error _ => (decode_latents 1, [n, 1])

/-- MimicMotionDecode.process (lines 336-349): chunked decode with the
single chunk-size-1 retry, then `tensor2vid` conversion (opaque `conv`,
applied per frame) and `[1:]`, dropping the first (conditioning) frame. -/
def decodeProcess {ε α β : Type} (decode_latents : ℕ → Except ε (List α))
    (conv : α → β) (decode_chunk_size : ℕ) : Except ε (List β) × List ℕ :=
  let r := decodeAttempts decode_latents decode_chunk_size
  (r.1.map (fun fr => (fr.map conv).drop 1), r.2)

/-- A detected pose as produced by the DWpose detector for one frame:
body keypoint candidates, face keypoints and hand keypoints (scores are
not needed by the rescale loop being modelled). -/
structure DetectedPose where
  bodiesCandidate : List (ℝ × ℝ)
  faces : List (ℝ × ℝ)
  hands : List (ℝ × ℝ)

/-- The per-axis affine map `p * a + b` applied to one keypoint. -/
def affinePt (a b : ℝ × ℝ) (p : ℝ × ℝ) : ℝ × ℝ :=
  (p.1 * a.1 + b.1, p.2 * a.2 + b.2)

/-- One iteration of the pose-rescale loop of MimicMotionGetPoses.process
(lines 434-440), exactly as written in the source: `bodies.candidate` is
rescaled under `include_body`, the `faces` keypoints under `include_hand`,
and the `hands` keypoints under `include_face`. -/
def rescalePose (include_body include_hand include_face : Bool)
    (a b : ℝ × ℝ) (p : DetectedPose) : DetectedPose :=
  let p1 := if include_body then
    { p with bodiesCandidate := p.bodiesCandidate.map (affinePt a b) } else p
  let p2 := if include_hand then
    { p1 with faces := p1.faces.map (affinePt a b) } else p1
  let p3 := if include_face then
    { p2 with hands := p2.hands.map (affinePt a b) } else p2
  p3

/-- Numpy fancy indexing `cand[ids]` for in-range index lists. -/
def selectIdx (cand : List (ℝ × ℝ)) (ids : List ℕ) : List (ℝ × ℝ) :=
  ids.filterMap (fun i => cand[i]?)

/-- The keypoint rows fed to the regression fit (lines 422-424): from each
detected pose whose body-candidate array has exactly 18 keypoints, the
keypoints at the selected reference indices; other frames contribute
nothing. -/
def fitCandidates (poses : List DetectedPose) (ids : List ℕ) : List (List (ℝ × ℝ)) :=
  (poses.filter (fun p => p.bodiesCandidate.length == 18)).map
    (fun p => selectIdx p.bodiesCandidate ids)

/-- MimicMotionGetPoses.process after detection (lines 422-452): stack the
18-keypoint frames' selected keypoints (`np.stack` raises when no frame
qualifies, `np.polyfit` raises when the stacked coordinate vector is
empty), compute the affine fit (opaque `fit`), rescale and render every
detected frame (opaque `draw`), prepend the rendered reference pose, and
return the pair (poses_with_ref, the same sequence without its first
frame). -/
def getPosesProcess {α : Type} (draw : DetectedPose → α)
    (fit : List (List (ℝ × ℝ)) → (ℝ × ℝ) × (ℝ × ℝ))
    (include_body include_hand include_face : Bool)
    (ids : List ℕ) (refPose : DetectedPose) (poses : List DetectedPose) :
    Except String (List α × List α) :=
  let cands := fitCandidates poses ids
  if cands.isEmpty then
    Except.error "need at least one array to stack"
  else if cands.flatten.isEmpty then
    Except.error "expected non-empty vector for x"
  else
    let ab := fit cands
    let output_pose := poses.map
      (fun p => draw (rescalePose include_body include_hand include_face ab.1 ab.2 p))
    let withRef := draw refPose :: output_pose
    Except.ok (withRef, withRef.drop 1)

/-- The resolution precondition of MimicMotionGetPoses.process (line 373):
`ref_image.shape[1:3] == pose_images.shape[1:3]` is asserted before the
pose detector is constructed or run; `runDetector` stands for all the work
from line 375 on. Returns the result and whether the detector was reached. -/
def getPosesGuard {α : Type} (refShape poseShape : ℕ × ℕ)
    (runDetector : Unit → α) : Except String α × Bool :=
  if refShape = poseShape then (Except.ok (runDetector ()), true)
  else (Except.error "ref_image and pose_images must have the same resolution", false)

/-- A detected pose with a full 18-keypoint body candidate array. -/
def pose18 : DetectedPose := ⟨List.replicate 18 ((0 : ℝ), (0 : ℝ)), [], []⟩

/-- A detected pose with an empty body candidate array (detector found
no person in the frame). -/
def pose0 : DetectedPose := ⟨[], [], []⟩

/-- A detected pose with a 17-keypoint body candidate array. -/
def pose17 : DetectedPose := ⟨List.replicate 17 ((0 : ℝ), (0 : ℝ)), [], []⟩

/-- C3: in the pose-rescale loop, the affine transform is applied to the
detected pose's `faces` keypoints exactly when `include_hand` is true and
to its `hands` keypoints exactly when `include_face` is true (the keys and
the toggles are cross-paired); a keypoint set whose paired toggle is false
is left unchanged. -/
theorem rescale_cross_pairing (include_body include_hand include_face : Bool)
    (a b : ℝ × ℝ) (p : DetectedPose) :
    (rescalePose include_body include_hand include_face a b p).faces =
      (if include_hand then p.faces.map (affinePt a b) else p.faces) ∧
    (rescalePose include_body include_hand include_face a b p).hands =
      (if include_face then p.hands.map (affinePt a b) else p.hands) := by
  cases include_body <;> cases include_hand <;> cases include_face <;>
    simp [rescalePose]

/-- C9: an optional scheduler override is installed into the shared
pipeline bundle and is still installed when the call returns (no restore),
while a call without an override leaves the bundle's scheduler unchanged. -/
theorem sampler_scheduler_mutation {σ β : Type} (pipe : MimicPipeline σ)
    (o : SchedulerOptions σ) (steps B context_size : ℕ)
    (pipelineFn : Option (List ℝ) → β) :
    (samplerProcess pipe (some o) steps B context_size pipelineFn).pipeline.scheduler
      = o.noise_scheduler ∧
    ∀ pipe2 : MimicPipeline σ,
      (samplerProcess pipe2 none steps B context_size pipelineFn).pipeline.scheduler
        = pipe2.scheduler := by
  constructor
  · unfold samplerProcess
    by_cases h : context_size ≤ B <;> simp [h]
  · intro pipe2
    unfold samplerProcess
    by_cases h : context_size ≤ B <;> simp [h]

/-- C5: MimicMotionSampler.process with `context_size` greater than the
number `B` of pose frames fails with the assertion message before the
underlying pipeline is invoked; when `B ≥ context_size` the precondition
check passes and the pipeline is invoked. -/
theorem sampler_context_precondition {σ β : Type} (pipe : MimicPipeline σ)
    (opt : Option (SchedulerOptions σ)) (steps B context_size : ℕ)
    (pipelineFn : Option (List ℝ) → β) :
    (B < context_size →
      (samplerProcess pipe opt steps B context_size pipelineFn).pipelineCalled = false ∧
      (samplerProcess pipe opt steps B context_size pipelineFn).outcome =
        Except.error "The number of poses must be greater than the context size") ∧
    (context_size ≤ B →
      (samplerProcess pipe opt steps B context_size pipelineFn).pipelineCalled = true) := by
  unfold samplerProcess
  by_cases h : context_size ≤ B <;> simp [h]

/-- C5 witness: with 3 pose frames and context size 5 the sampler fails
before calling the pipeline; with 16 frames and context size 16 it runs. -/
theorem sampler_context_precondition_witness :
    (samplerProcess (⟨0⟩ : MimicPipeline ℕ) none 25 3 5 (fun _ => (0 : ℕ))).pipelineCalled
      = false ∧
    (samplerProcess (⟨0⟩ : MimicPipeline ℕ) none 25 16 16 (fun _ => (0 : ℕ))).pipelineCalled
      = true :=
  ⟨((sampler_context_precondition _ none 25 3 5 _).1 (by norm_num)).1,
   (sampler_context_precondition _ none 25 16 16 _).2 (by norm_num)⟩

/-- C8: MimicMotionGetPoses.process asserts equal reference/pose
resolutions before the pose detector runs: on mismatch it fails with the
assertion message and the detector is never reached, on match the check
passes and the detector work proceeds. -/
theorem getposes_resolution_precondition {α : Type} (refShape poseShape : ℕ × ℕ)
    (runDetector : Unit → α) :
    (refShape ≠ poseShape →
      getPosesGuard refShape poseShape runDetector =
        (Except.error "ref_image and pose_images must have the same resolution", false)) ∧
    (refShape = poseShape →
      getPosesGuard refShape poseShape runDetector =
        (Except.ok (runDetector ()), true)) := by
  unfold getPosesGuard
  by_cases h : refShape = poseShape <;> simp [h]

/-- C8 witness: a 512x512 reference with 256x256 poses fails the check
before the detector runs; matching 512x512 shapes pass. -/
theorem getposes_resolution_precondition_witness :
    getPosesGuard (512, 512) (256, 256) (fun _ => (0 : ℕ)) =
      (Except.error "ref_image and pose_images must have the same resolution", false) ∧
    getPosesGuard (512, 512) (512, 512) (fun _ => (0 : ℕ)) =
      (Except.ok 0, true) :=
  ⟨(getposes_resolution_precondition (512, 512) (256, 256) _).1 (by decide),
   (getposes_resolution_precondition (512, 512) (512, 512) _).2 rfl⟩

/-- C4: if the decode call with the requested chunk size raises, the
decode is retried exactly once with chunk size 1 (the attempted chunk
sizes are `[n, 1]`) and a failure of that retry propagates; every
successful run returns the decoded frames without the first (conditioning)
frame, hence one frame fewer than were decoded. -/
theorem decode_retry_and_drop {ε α β : Type} (decode_latents : ℕ → Except ε (List α))
    (conv : α → β) (n : ℕ) :
    (∀ fr, decode_latents n = Except.ok fr →
      decodeProcess decode_latents conv n = (Except.ok ((fr.map conv).drop 1), [n])) ∧
    (∀ e, decode_latents n = Except.error e →
      (decodeProcess decode_latents conv n).2 = [n, 1] ∧
      ∀ e2, decode_latents 1 = Except.error e2 →
        (decodeProcess decode_latents conv n).1 = Except.error e2) ∧
    (∀ out, (decodeProcess decode_latents conv n).1 = Except.ok out →
      ∃ fr, (decode_latents n = Except.ok fr ∨ decode_latents 1 = Except.ok fr) ∧
        out = (fr.map conv).drop 1 ∧ out.length = fr.length - 1) := by
  refine ⟨?_, ?_, ?_⟩
  · intro fr hfr
    simp [decodeProcess, decodeAttempts, hfr, Except.map]
  · intro e he
    refine ⟨by simp [decodeProcess, decodeAttempts, he], ?_⟩
    intro e2 he2
    simp [decodeProcess, decodeAttempts, he, he2, Except.map]
  · intro out hout
    cases h1 : decode_latents n with
    | ok fr =>
      simp [decodeProcess, decodeAttempts, h1, Except.map] at hout
      refine ⟨fr, Or.inl rfl, ?_, ?_⟩ <;> simp [← hout]
    | error e =>
      cases h2 : decode_latents 1 with
      | ok fr =>
        simp [decodeProcess, decodeAttempts, h1, h2, Except.map] at hout
        refine ⟨fr, Or.inr rfl, ?_, ?_⟩ <;> simp [← hout]
      | error e2 =>
        simp [decodeProcess, decodeAttempts, h1, h2, Except.map] at hout

/-- C4 witness: a decoder that raises at chunk size 3 but succeeds at
chunk size 1 is attempted at `[3, 1]` and the output drops the first of
the three decoded frames. -/
theorem decode_retry_and_drop_witness :
    (decodeProcess (fun k => if k = 3 then (Except.error "oom" : Except String (List ℕ))
        else Except.ok [10, 20, 30]) id 3).2 = [3, 1] ∧
    (decodeProcess (fun k => if k = 3 then (Except.error "oom" : Except String (List ℕ))
        else Except.ok [10, 20, 30]) id 3).1 = Except.ok [20, 30] :=
  ⟨((decode_retry_and_drop (fun k => if k = 3 then (Except.error "oom" : Except String (List ℕ))
        else Except.ok [10, 20, 30]) id 3).2.1 "oom" (by simp)).1, by rfl⟩

/-- C10: whenever MimicMotionGetPoses.process returns, its second output
(`pose_images`) is the first output (`poses_with_ref`) with the first
frame removed, so it has exactly one frame fewer. -/
theorem getposes_outputs_relation {α : Type} (draw : DetectedPose → α)
    (fit : List (List (ℝ × ℝ)) → (ℝ × ℝ) × (ℝ × ℝ))
    (include_body include_hand include_face : Bool) (ids : List ℕ)
    (refPose : DetectedPose) (poses : List DetectedPose) (out : List α × List α)
    (h : getPosesProcess draw fit include_body include_hand include_face ids refPose poses
      = Except.ok out) :
    out.2 = out.1.drop 1 ∧ out.2.length + 1 = out.1.length := by
  unfold getPosesProcess at h
  by_cases h1 : (fitCandidates poses ids).isEmpty
  · simp [h1] at h
  by_cases h2 : (fitCandidates poses ids).flatten.isEmpty
  · simp [h1, h2] at h
  simp only [h1, h2, if_false, Bool.false_eq_true, ite_false] at h
  cases h
  simp

/-- C1 counterexample: with the 11-entry align-your-steps table and
`steps = 10` (so `steps + 1` already equals the table length), the sigma
sequence handed to the pipeline is the table unchanged, whose final
element is 0.002, not zero. -/
theorem ays_sigma_not_zero_at_ten_steps :
    (samplerProcess (⟨0⟩ : MimicPipeline ℕ) (some ⟨1, some aysSigmas⟩) 10 16 16
        (fun s => s)).sigmasPassed = some (some aysSigmas) ∧
    aysSigmas.getLast? = some 0.002 ∧ (0.002 : ℝ) ≠ 0 := by
  refine ⟨?_, ?_, by norm_num⟩
  · have hlen : aysSigmas.length = 11 := by
      simp [aysSigmas]
    simp [samplerProcess, resolveSigmas, hlen]
  · simp [aysSigmas]

/-- C1 (amended): whenever the optional scheduler carries a sigma table
whose length differs from `steps + 1` (so the interpolation path runs) and
the context precondition lets the pipeline be invoked, the sigma sequence
handed to the pipeline ends in exactly zero. -/
theorem ays_interp_final_sigma_zero {σ β : Type} (pipe : MimicPipeline σ) (ns : σ)
    (s : List ℝ) (steps B context_size : ℕ) (pipelineFn : Option (List ℝ) → β)
    (hlen : steps + 1 ≠ s.length) (hB : context_size ≤ B) :
    ∃ r : List ℝ,
      (samplerProcess pipe (some ⟨ns, some s⟩) steps B context_size
          pipelineFn).sigmasPassed = some (some r) ∧
      r.getLast? = some 0 := by
  refine ⟨setLast (takeLast (loglinear_interp s (steps + 1)) (steps + 1)) 0, ?_, ?_⟩
  · simp [samplerProcess, resolveSigmas, hlen, hB]
  · simp [setLast]

/-- C1 witness: with the 11-entry table and `steps = 5` the interpolation
path runs and the sigma sequence handed to the pipeline ends in zero. -/
theorem ays_interp_final_sigma_zero_witness :
    (5 + 1 ≠ aysSigmas.length) ∧
    ∃ r : List ℝ,
      (samplerProcess (⟨0⟩ : MimicPipeline ℕ) (some ⟨1, some aysSigmas⟩) 5 16 16
          (fun s => s)).sigmasPassed = some (some r) ∧
      r.getLast? = some 0 :=
  ⟨by simp [aysSigmas],
   ays_interp_final_sigma_zero ⟨0⟩ 1 aysSigmas 5 16 16 (fun s => s)
     (by simp [aysSigmas]) (by norm_num)⟩

/-- C10 witness: one 18-keypoint frame with a reference pose yields
outputs ([ref, frame], [frame]) related by dropping the first frame. -/
theorem getposes_outputs_relation_witness :
    (([0, 0], [0]) : List ℕ × List ℕ).2 = (([0, 0], [0]) : List ℕ × List ℕ).1.drop 1 ∧
    (([0, 0], [0]) : List ℕ × List ℕ).2.length + 1
      = (([0, 0], [0]) : List ℕ × List ℕ).1.length :=
  getposes_outputs_relation (fun _ => 0) (fun _ => ((1, 1), (0, 0))) true true true
    [0] pose0 [pose18] ([0, 0], [0]) rfl

/-- Helper: the successful-run equation of the post-detection part of
MimicMotionGetPoses.process, given that the fit precondition holds. -/
theorem getPosesProcess_eq_ok {α : Type} (draw : DetectedPose → α)
    (fit : List (List (ℝ × ℝ)) → (ℝ × ℝ) × (ℝ × ℝ))
    (include_body include_hand include_face : Bool) (ids : List ℕ)
    (refPose : DetectedPose) (poses : List DetectedPose)
    (hfit : (fitCandidates poses ids).flatten ≠ []) :
    getPosesProcess draw fit include_body include_hand include_face ids refPose poses
      = Except.ok (draw refPose :: poses.map (fun p =>
            draw (rescalePose include_body include_hand include_face
              (fit (fitCandidates poses ids)).1 (fit (fitCandidates poses ids)).2 p)),
          poses.map (fun p =>
            draw (rescalePose include_body include_hand include_face
              (fit (fitCandidates poses ids)).1 (fit (fitCandidates poses ids)).2 p))) := by
  have h2 : (fitCandidates poses ids).flatten.isEmpty = false := by
    simpa [List.isEmpty_iff] using hfit
  have h1 : (fitCandidates poses ids).isEmpty = false := by
    rcases h : fitCandidates poses ids with _ | ⟨c, cs⟩
    · rw [h] at hfit
      simp at hfit
    · simp
  simp [getPosesProcess, h1, h2]

/-- C7 (amended): for every input pose sequence with at least one frame of
exactly 18 body keypoints whose selected reference indices pick at least
one keypoint (otherwise the keypoint stacking or the fit raises before any
output exists), and with in-range reference indices as built at line 407,
the first output has N + 1 frames: the rendered reference pose followed by
the rescaled, rendered pose frames in input order. -/
theorem getposes_output_structure {α : Type} (draw : DetectedPose → α)
    (fit : List (List (ℝ × ℝ)) → (ℝ × ℝ) × (ℝ × ℝ))
    (include_body include_hand include_face : Bool) (ids : List ℕ)
    (refPose : DetectedPose) (poses : List DetectedPose)
    (hids : ∀ i ∈ ids, i < 18)
    (hfit : (fitCandidates poses ids).flatten ≠ []) :
    ∃ out : List α × List α,
      getPosesProcess draw fit include_body include_hand include_face ids refPose poses
        = Except.ok out ∧
      out.1.length = poses.length + 1 ∧
      out.1.head? = some (draw refPose) ∧
      out.1.drop 1 = poses.map (fun p =>
        draw (rescalePose include_body include_hand include_face
          (fit (fitCandidates poses ids)).1 (fit (fitCandidates poses ids)).2 p)) := by
  refine ⟨(draw refPose :: poses.map (fun p =>
      draw (rescalePose include_body include_hand include_face
        (fit (fitCandidates poses ids)).1 (fit (fitCandidates poses ids)).2 p)),
    poses.map (fun p =>
      draw (rescalePose include_body include_hand include_face
        (fit (fitCandidates poses ids)).1 (fit (fitCandidates poses ids)).2 p))),
    getPosesProcess_eq_ok draw fit include_body include_hand include_face ids
      refPose poses hfit, by simp, rfl, by simp⟩

/-- C7 counterexample: a single detected frame with 17 body keypoints
makes `np.stack` raise (no frame qualifies for the fit), so the node
produces no output at all, refuting the unconditional claim. -/
theorem getposes_output_structure_cex :
    getPosesProcess (fun _ => (0 : ℕ)) (fun _ => ((1, 1), (0, 0))) true true true
        [0] pose0 [pose17] = Except.error "need at least one array to stack" ∧
    ¬ ∃ out : List ℕ × List ℕ,
        getPosesProcess (fun _ => (0 : ℕ)) (fun _ => ((1, 1), (0, 0))) true true true
          [0] pose0 [pose17] = Except.ok out := by
  refine ⟨rfl, ?_⟩
  rintro ⟨out, h⟩
  rw [show getPosesProcess (fun _ => (0 : ℕ)) (fun _ => ((1, 1), (0, 0))) true true true
      [0] pose0 [pose17] = Except.error "need at least one array to stack" from rfl] at h
  exact Except.noConfusion h

/-- C7 witness: one 18-keypoint frame passes the fit precondition and the
node returns successfully. -/
theorem getposes_output_structure_witness :
    (∀ i ∈ ([0] : List ℕ), i < 18) ∧
    (fitCandidates [pose18] [0]).flatten ≠ [] ∧
    ∃ out : List ℕ × List ℕ,
      getPosesProcess (fun _ => (0 : ℕ)) (fun _ => ((1, 1), (0, 0))) true true true
        [0] pose18 [pose18] = Except.ok out := by
  have hids : ∀ i ∈ ([0] : List ℕ), i < 18 := by
    intro i hi
    simp at hi
    omega
  have hfit : (fitCandidates [pose18] [0]).flatten ≠ [] := by
    rw [show (fitCandidates [pose18] [0]).flatten = [((0 : ℝ), (0 : ℝ))] from rfl]
    simp
  obtain ⟨out, hout, -, -, -⟩ := getposes_output_structure (fun _ => (0 : ℕ))
    (fun _ => ((1, 1), (0, 0))) true true true [0] pose18 [pose18] hids hfit
  exact ⟨hids, hfit, out, hout⟩

/-- C6 (amended): provided at least one detected frame has exactly 18 body
keypoints and the (in-range) reference indices select at least one of its
keypoints (otherwise the stacking/fit step raises before any output), a
frame without exactly 18 body keypoints contributes nothing to the
regression fit while every frame, of any keypoint count, is rescaled,
rendered and present at its input position in the final output; frames
with exactly 18 keypoints contribute their keypoints at the selected
reference indices to the fit. -/
theorem getposes_fit_18_filter {α : Type} (draw : DetectedPose → α)
    (fit : List (List (ℝ × ℝ)) → (ℝ × ℝ) × (ℝ × ℝ))
    (include_body include_hand include_face : Bool) (ids : List ℕ)
    (refPose : DetectedPose) (poses : List DetectedPose)
    (hids : ∀ i ∈ ids, i < 18)
    (hfit : (fitCandidates poses ids).flatten ≠ []) :
    (fitCandidates poses ids).length
      = poses.countP (fun p => p.bodiesCandidate.length == 18) ∧
    (∀ p ∈ poses, p.bodiesCandidate.length = 18 →
      selectIdx p.bodiesCandidate ids ∈ fitCandidates poses ids) ∧
    ∃ out : List α × List α,
      getPosesProcess draw fit include_body include_hand include_face ids refPose poses
        = Except.ok out ∧
      out.1.length = poses.length + 1 ∧
      ∀ i (hi : i < poses.length),
        out.1[i + 1]? = some (draw (rescalePose include_body include_hand include_face
          (fit (fitCandidates poses ids)).1 (fit (fitCandidates poses ids)).2
          poses[i])) := by
  refine ⟨?_, ?_, ?_⟩
  · simp [fitCandidates, List.countP_eq_length_filter]
  · intro p hp hlen
    exact List.mem_map_of_mem _ (List.mem_filter.mpr ⟨hp, by simp [hlen]⟩)
  · refine ⟨(draw refPose :: poses.map (fun p =>
        draw (rescalePose include_body include_hand include_face
          (fit (fitCandidates poses ids)).1 (fit (fitCandidates poses ids)).2 p)),
      poses.map (fun p =>
        draw (rescalePose include_body include_hand include_face
          (fit (fitCandidates poses ids)).1 (fit (fitCandidates poses ids)).2 p))),
      getPosesProcess_eq_ok draw fit include_body include_hand include_face ids
        refPose poses hfit, by simp, ?_⟩
    intro i hi
    rw [List.getElem?_cons_succ, List.getElem?_map, List.getElem?_eq_getElem hi]
    rfl

/-- C6 counterexample: when every detected frame lacks the full 18 body
keypoints (here a single empty detection), `np.stack` raises and no frame
is rescaled, rendered, or output at all, refuting the unconditional
claim. -/
theorem getposes_fit_18_filter_cex :
    pose0.bodiesCandidate.length ≠ 18 ∧
    getPosesProcess (fun _ => (0 : ℕ)) (fun _ => ((1, 1), (0, 0))) true true true
      [0] pose0 [pose0] = Except.error "need at least one array to stack" := by
  exact ⟨by simp [pose0], rfl⟩

/-- C6 witness: with one 18-keypoint frame and one 17-keypoint frame, only
the former feeds the fit, and the node still returns successfully
(rendering both frames). -/
theorem getposes_fit_18_filter_witness :
    (fitCandidates [pose18, pose17] [0]).flatten ≠ [] ∧
    (fitCandidates [pose18, pose17] [0]).length
      = List.countP (fun p => p.bodiesCandidate.length == 18) [pose18, pose17] ∧
    ∃ out : List ℕ × List ℕ,
      getPosesProcess (fun _ => (0 : ℕ)) (fun _ => ((1, 1), (0, 0))) true true true
        [0] pose0 [pose18, pose17] = Except.ok out := by
  have hfit : (fitCandidates [pose18, pose17] [0]).flatten ≠ [] := by
    rw [show (fitCandidates [pose18, pose17] [0]).flatten = [((0 : ℝ), (0 : ℝ))] from rfl]
    simp
  obtain ⟨hcount, -, out, hout, -, -⟩ := getposes_fit_18_filter (fun _ => (0 : ℕ))
    (fun _ => ((1, 1), (0, 0))) true true true [0] pose0 [pose18, pose17]
    (by intro i hi; simp at hi; omega) hfit
  exact ⟨hfit, hcount, out, hout⟩

/-- Interpolation helper: at or left of the first sample point the clamped
first y-value is returned. -/
theorem interpPt_at_left (x0 y0 : ℝ) (rest : List (ℝ × ℝ)) (x : ℝ) (h : x ≤ x0) :
    interpPt ((x0, y0) :: rest) x = y0 := by
  cases rest with
  | nil => simp [interpPt]
  | cons q rest2 =>
    obtain ⟨x1, y1⟩ := q
    simp [interpPt, h]

/-- Interpolation helper: with strictly increasing sample x-coordinates and
non-decreasing y-values, every interpolated value is at least the first
y-value. -/
theorem interpPt_ge_head : ∀ (rest : List (ℝ × ℝ)) (x0 y0 x : ℝ),
    List.Chain' (fun p q : ℝ × ℝ => p.1 < q.1 ∧ p.2 ≤ q.2) ((x0, y0) :: rest) →
    y0 ≤ interpPt ((x0, y0) :: rest) x := by
  intro rest
  induction rest with
  | nil =>
    intro x0 y0 x _
    simp [interpPt]
  | cons q rest2 ih =>
    intro x0 y0 x hch
    obtain ⟨x1, y1⟩ := q
    rw [List.chain'_cons] at hch
    obtain ⟨⟨hx01, hy01⟩, hch2⟩ := hch
    by_cases h0 : x ≤ x0
    · simp [interpPt, h0]
    · by_cases h1 : x ≤ x1
      · simp only [interpPt, if_neg h0, if_pos h1]
        have hx0 : x0 < x := lt_of_not_le h0
        have hnum : 0 ≤ (y1 - y0) * (x - x0) :=
          mul_nonneg (sub_nonneg.mpr hy01) (le_of_lt (sub_pos.mpr hx0))
        have hq : 0 ≤ (y1 - y0) * (x - x0) / (x1 - x0) :=
          div_nonneg hnum (le_of_lt (sub_pos.mpr hx01))
        linarith
      · simp only [interpPt, if_neg h0, if_neg h1]
        exact le_trans hy01 (ih x1 y1 x hch2)

/-- Interpolation helper: with strictly increasing sample x-coordinates and
non-decreasing y-values, the interpolant is monotone in its query point. -/
theorem interpPt_mono : ∀ (pts : List (ℝ × ℝ)),
    List.Chain' (fun p q : ℝ × ℝ => p.1 < q.1 ∧ p.2 ≤ q.2) pts →
    ∀ u v : ℝ, u ≤ v → interpPt pts u ≤ interpPt pts v := by
  intro pts
  induction pts with
  | nil =>
    intro _ u v _
    simp [interpPt]
  | cons p rest ih =>
    intro hch u v huv
    obtain ⟨x0, y0⟩ := p
    cases rest with
    | nil => simp [interpPt]
    | cons q rest2 =>
      obtain ⟨x1, y1⟩ := q
      rw [List.chain'_cons] at hch
      obtain ⟨⟨hx01, hy01⟩, hch2⟩ := hch
      have hd : 0 < x1 - x0 := sub_pos.mpr hx01
      by_cases hu0 : u ≤ x0
      · rw [interpPt_at_left x0 y0 _ u hu0]
        exact interpPt_ge_head _ x0 y0 v (List.chain'_cons.mpr ⟨⟨hx01, hy01⟩, hch2⟩)
      · have hx0u : x0 < u := lt_of_not_le hu0
        have hv0 : ¬ v ≤ x0 := not_le.mpr (lt_of_lt_of_le hx0u huv)
        by_cases hu1 : u ≤ x1
        · have hL : interpPt ((x0, y0) :: (x1, y1) :: rest2) u
              = y0 + (y1 - y0) * (u - x0) / (x1 - x0) := by
            simp [interpPt, hu0, hu1]
          by_cases hv1 : v ≤ x1
          · have hR : interpPt ((x0, y0) :: (x1, y1) :: rest2) v
                = y0 + (y1 - y0) * (v - x0) / (x1 - x0) := by
              simp [interpPt, hv0, hv1]
            rw [hL, hR]
            have hmul : (y1 - y0) * (u - x0) ≤ (y1 - y0) * (v - x0) :=
              mul_le_mul_of_nonneg_left (by linarith) (sub_nonneg.mpr hy01)
            have := (div_le_div_iff_of_pos_right hd).mpr hmul
            linarith
          · have hR : interpPt ((x0, y0) :: (x1, y1) :: rest2) v
                = interpPt ((x1, y1) :: rest2) v := by
              simp [interpPt, hv0, hv1]
            rw [hL, hR]
            have hmul : (y1 - y0) * (u - x0) ≤ (y1 - y0) * (x1 - x0) :=
              mul_le_mul_of_nonneg_left (by linarith) (sub_nonneg.mpr hy01)
            have hdiv : (y1 - y0) * (u - x0) / (x1 - x0)
                ≤ (y1 - y0) * (x1 - x0) / (x1 - x0) :=
              (div_le_div_iff_of_pos_right hd).mpr hmul
            have hcancel : (y1 - y0) * (x1 - x0) / (x1 - x0) = y1 - y0 :=
              mul_div_cancel_right₀ _ (ne_of_gt hd)
            have htail : y1 ≤ interpPt ((x1, y1) :: rest2) v :=
              interpPt_ge_head rest2 x1 y1 v hch2
            rw [hcancel] at hdiv
            linarith
        · have hv1 : ¬ v ≤ x1 := not_le.mpr (lt_of_lt_of_le (lt_of_not_le hu1) huv)
          have hL : interpPt ((x0, y0) :: (x1, y1) :: rest2) u
              = interpPt ((x1, y1) :: rest2) u := by
            simp [interpPt, hu0, hu1]
          have hR : interpPt ((x0, y0) :: (x1, y1) :: rest2) v
              = interpPt ((x1, y1) :: rest2) v := by
            simp [interpPt, hv0, hv1]
          rw [hL, hR]
          exact ih hch2 u v huv

/-- Interpolation helper: at or right of the last sample point the clamped
last y-value is returned (and the last x-coordinate bounds the first). -/
theorem interpPt_at_right : ∀ (rest : List (ℝ × ℝ)) (x0 y0 : ℝ),
    List.Chain' (fun p q : ℝ × ℝ => p.1 < q.1 ∧ p.2 ≤ q.2) ((x0, y0) :: rest) →
    ∀ xe ye : ℝ, ((x0, y0) :: rest).getLast? = some (xe, ye) →
    x0 ≤ xe ∧ ∀ x : ℝ, xe ≤ x → interpPt ((x0, y0) :: rest) x = ye := by
  intro rest
  induction rest with
  | nil =>
    intro x0 y0 _ xe ye hlast
    simp at hlast
    obtain ⟨hx, hy⟩ := hlast
    subst hx
    subst hy
    exact ⟨le_refl _, fun x _ => by simp [interpPt]⟩
  | cons q rest2 ih =>
    intro x0 y0 hch xe ye hlast
    obtain ⟨x1, y1⟩ := q
    rw [List.chain'_cons] at hch
    obtain ⟨⟨hx01, hy01⟩, hch2⟩ := hch
    rw [List.getLast?_cons_cons] at hlast
    obtain ⟨hx1e, htail⟩ := ih x1 y1 hch2 xe ye hlast
    refine ⟨le_trans (le_of_lt hx01) hx1e, ?_⟩
    intro x hxe
    have hx1x : x1 ≤ x := le_trans hx1e hxe
    have hx0 : ¬ x ≤ x0 := not_le.mpr (lt_of_lt_of_le hx01 hx1x)
    by_cases hx1 : x ≤ x1
    · have hxx1 : x = x1 := le_antisymm hx1 hx1x
      have hye : ye = y1 := by
        have h1 := htail x1 (hxx1 ▸ hxe)
        rw [interpPt_at_left x1 y1 rest2 x1 (le_refl x1)] at h1
        exact h1.symm
      rw [hye]
      rw [show interpPt ((x0, y0) :: (x1, y1) :: rest2) x
          = y0 + (y1 - y0) * (x - x0) / (x1 - x0) from by simp [interpPt, hx0, hx1]]
      rw [hxx1, mul_div_assoc, div_self (ne_of_gt (sub_pos.mpr hx01))]
      ring
    · simp only [interpPt, if_neg hx0, if_neg hx1]
      exact htail x hxe

/-- Zipping two chains gives a chain of the paired relation. -/
theorem chain'_zip {α β : Type} {R : α → α → Prop} {S : β → β → Prop} :
    ∀ (xs : List α) (ys : List β), List.Chain' R xs → List.Chain' S ys →
      List.Chain' (fun p q => R p.1 q.1 ∧ S p.2 q.2) (xs.zip ys) := by
  intro xs
  induction xs with
  | nil =>
    intro ys _ _
    simp
  | cons x xs2 ih =>
    intro ys hx hy
    cases ys with
    | nil => simp
    | cons y ys2 =>
      cases xs2 with
      | nil => simp
      | cons x2 xs3 =>
        cases ys2 with
        | nil => simp
        | cons y2 ys3 =>
          rw [List.zip_cons_cons, List.zip_cons_cons, List.chain'_cons]
          rw [List.chain'_cons] at hx hy
          exact ⟨⟨hx.1, hy.1⟩, by
            rw [← List.zip_cons_cons]
            exact ih (y2 :: ys3) hx.2 hy.2⟩

/-- The last element of a zip of two equal-length lists pairs the last
elements. -/
theorem zip_getLast?_of_length_eq {α β : Type} :
    ∀ (xs : List α) (ys : List β), xs.length = ys.length →
    ∀ x y, xs.getLast? = some x → ys.getLast? = some y →
    (xs.zip ys).getLast? = some (x, y) := by
  intro xs
  induction xs with
  | nil =>
    intro ys _ x y hx _
    simp at hx
  | cons a xs2 ih =>
    intro ys hlen x y hx hy
    cases ys with
    | nil => simp at hlen
    | cons b ys2 =>
      cases xs2 with
      | nil =>
        cases ys2 with
        | nil =>
          simp at hx hy
          subst hx
          subst hy
          simp
        | cons b2 ys3 => simp at hlen
      | cons a2 xs3 =>
        cases ys2 with
        | nil => simp at hlen
        | cons b2 ys3 =>
          rw [List.getLast?_cons_cons] at hx hy
          rw [List.zip_cons_cons, List.zip_cons_cons, List.getLast?_cons_cons,
            ← List.zip_cons_cons]
          exact ih (b2 :: ys3) (by simpa using hlen) x y hx hy

/-- The length of a linspace grid. -/
theorem linspace_length (a b : ℝ) (n : ℕ) : (linspace a b n).length = n := by
  rw [linspace, List.length_map, List.length_range]

/-- Element formula for the unit linspace grid. -/
theorem linspace01_getElem? (n i : ℕ) (h : i < n) :
    (linspace 0 1 n)[i]? = some ((i : ℝ) / ((n : ℝ) - 1)) := by
  rw [linspace, List.getElem?_map, List.getElem?_range h]
  norm_num

/-- The unit linspace grid starts at `0` (when nonempty). -/
theorem linspace01_head? (n : ℕ) (h : 1 ≤ n) :
    (linspace 0 1 n).head? = some 0 := by
  rw [List.head?_eq_getElem?, linspace01_getElem? n 0 (by omega)]
  simp

/-- The unit linspace grid ends at `1` (when it has two or more points). -/
theorem linspace01_getLast? (n : ℕ) (h : 2 ≤ n) :
    (linspace 0 1 n).getLast? = some 1 := by
  rw [List.getLast?_eq_getElem?, linspace_length,
    linspace01_getElem? n (n - 1) (by omega)]
  have h1 : 1 ≤ n := by omega
  have hcast : ((n - 1 : ℕ) : ℝ) = (n : ℝ) - 1 := by
    rw [Nat.cast_sub h1, Nat.cast_one]
  have hne : (n : ℝ) - 1 ≠ 0 := by
    have h2 : (2 : ℝ) ≤ (n : ℝ) := by exact_mod_cast h
    linarith
  rw [hcast, div_self hne]

/-- The unit linspace grid is strictly increasing. -/
theorem linspace01_chain_lt (n : ℕ) : List.Chain' (· < ·) (linspace 0 1 n) := by
  rcases n with _ | _ | k
  · rw [linspace]
    simp
  · rw [linspace]
    simp
  · rw [linspace]
    refine List.chain'_map_of_chain' _ ?_ ((List.pairwise_lt_range (k + 2)).chain')
    intro i j hij
    have hpos : (0 : ℝ) < (((k + 2 : ℕ) : ℝ)) - 1 := by
      push_cast
      linarith
    have hlt : (i : ℝ) < (j : ℝ) := by exact_mod_cast hij
    have h2 : (i : ℝ) / (((k + 2 : ℕ) : ℝ) - 1) < (j : ℝ) / (((k + 2 : ℕ) : ℝ) - 1) :=
      (div_lt_div_iff_of_pos_right hpos).mpr hlt
    calc (0 : ℝ) + (1 - 0) * (i : ℝ) / (((k + 2 : ℕ) : ℝ) - 1)
        = (i : ℝ) / (((k + 2 : ℕ) : ℝ) - 1) := by ring
      _ < (j : ℝ) / (((k + 2 : ℕ) : ℝ) - 1) := h2
      _ = 0 + (1 - 0) * (j : ℝ) / (((k + 2 : ℕ) : ℝ) - 1) := by ring

/-- The unit linspace grid is non-decreasing. -/
theorem linspace01_chain_le (n : ℕ) : List.Chain' (· ≤ ·) (linspace 0 1 n) :=
  (linspace01_chain_lt n).imp (fun _ _ h => le_of_lt h)

/-- A chain relation can be weakened using membership information. -/
theorem chain'_of_chain'_mem {α : Type} {R S : α → α → Prop} :
    ∀ (l : List α), List.Chain' R l → (∀ a ∈ l, ∀ b ∈ l, R a b → S a b) →
    List.Chain' S l := by
  intro l
  induction l with
  | nil =>
    intro _ _
    simp
  | cons x l2 ih =>
    intro h H
    cases l2 with
    | nil => simp
    | cons y l3 =>
      rw [List.chain'_cons] at h ⊢
      refine ⟨H x (by simp) y (by simp) h.1, ?_⟩
      exact ih h.2 (fun a ha b hb hab =>
        H a (List.mem_cons_of_mem x ha) b (List.mem_cons_of_mem x hb) hab)

/-- The head of a zip pairs the heads. -/
theorem zip_head? {α β : Type} (xs : List α) (ys : List β) (x : α) (y : β)
    (hx : xs.head? = some x) (hy : ys.head? = some y) :
    (xs.zip ys).head? = some (x, y) := by
  cases xs with
  | nil => simp at hx
  | cons a xs2 =>
    cases ys with
    | nil => simp at hy
    | cons b ys2 =>
      simp at hx hy
      rw [List.zip_cons_cons, List.head?_cons, hx, hy]

/-- The last grid coordinate `(n-1)/(n-1)` never exceeds `1` (it is `0`
when `n = 1`, where the denominator is zero). -/
theorem ratio_last_le_one (n : ℕ) (h : 1 ≤ n) :
    ((n - 1 : ℕ) : ℝ) / ((n : ℝ) - 1) ≤ 1 := by
  rcases n with _ | _ | k
  · exact absurd h (by omega)
  · norm_num
  · have h1 : 1 ≤ k + 2 := by omega
    have hcast : ((k + 2 - 1 : ℕ) : ℝ) = ((k + 2 : ℕ) : ℝ) - 1 := by
      rw [Nat.cast_sub h1, Nat.cast_one]
    have hne : ((k + 2 : ℕ) : ℝ) - 1 ≠ 0 := by
      push_cast
      linarith
    rw [hcast, div_self hne]

/-- C2 (amended): for every nonempty strictly decreasing positive input,
`loglinear_interp` returns a sequence of the requested length that is
non-increasing; when the requested count is at least 2 (so the new even
grid contains both extremes of the old grid) the first and last output
elements equal the input's first and last elements exactly (in real
arithmetic). -/
theorem loglinear_interp_spec (t : List ℝ) (m : ℕ) (ht : t ≠ [])
    (hpos : ∀ x ∈ t, 0 < x) (hdec : List.Chain' (· > ·) t) :
    (loglinear_interp t m).length = m ∧
    List.Chain' (· ≥ ·) (loglinear_interp t m) ∧
    (2 ≤ m →
      (loglinear_interp t m).head? = t.head? ∧
      (loglinear_interp t m).getLast? = t.getLast?) := by
  have hrev_lt : List.Chain' (· < ·) t.reverse := by
    rw [List.chain'_reverse]
    exact hdec
  have hrev_pos : ∀ x ∈ t.reverse, 0 < x := fun x hx => hpos x (List.mem_reverse.mp hx)
  have hlog : List.Chain' (fun a b : ℝ => Real.log a ≤ Real.log b) t.reverse :=
    chain'_of_chain'_mem t.reverse hrev_lt
      (fun a ha _ _ hab => Real.log_le_log (hrev_pos a ha) (le_of_lt hab))
  have hys : List.Chain' (· ≤ ·) (t.reverse.map Real.log) :=
    (List.chain'_map Real.log).mpr hlog
  have hpts : List.Chain' (fun p q : ℝ × ℝ => p.1 < q.1 ∧ p.2 ≤ q.2)
      ((linspace 0 1 t.length).zip (t.reverse.map Real.log)) :=
    chain'_zip _ _ (linspace01_chain_lt t.length) hys
  have hunfold : loglinear_interp t m =
      (((linspace 0 1 m).map
        (interpPt ((linspace 0 1 t.length).zip (t.reverse.map Real.log)))).map
        Real.exp).reverse := rfl
  refine ⟨?_, ?_, ?_⟩
  · rw [hunfold, List.length_reverse, List.length_map, List.length_map, linspace_length]
  · rw [hunfold, List.chain'_reverse]
    have hnew : List.Chain' (· ≤ ·)
        ((linspace 0 1 m).map
          (interpPt ((linspace 0 1 t.length).zip (t.reverse.map Real.log)))) :=
      (List.chain'_map _).mpr ((linspace01_chain_le m).imp
        (fun a b hab => interpPt_mono _ hpts a b hab))
    exact (List.chain'_map _).mpr (hnew.imp (fun a b hab => Real.exp_le_exp.mpr hab))
  · intro hm
    have hn1 : 1 ≤ t.length := List.length_pos.mpr ht
    have hlys : (t.reverse.map Real.log).length = t.length := by
      rw [List.length_map, List.length_reverse]
    have hxsh : (linspace 0 1 t.length).head? = some 0 := linspace01_head? _ hn1
    have hxsl : (linspace 0 1 t.length).getLast?
        = some (((t.length - 1 : ℕ) : ℝ) / ((t.length : ℝ) - 1)) := by
      rw [List.getLast?_eq_getElem?, linspace_length,
        linspace01_getElem? _ (t.length - 1) (by omega)]
    have hysh : (t.reverse.map Real.log).head? = some (Real.log (t.getLast ht)) := by
      rw [List.head?_map, List.head?_reverse, List.getLast?_eq_getLast t ht]
      rfl
    have hysl : (t.reverse.map Real.log).getLast? = some (Real.log (t.head ht)) := by
      rw [List.getLast?_map, List.getLast?_reverse, List.head?_eq_head ht]
      rfl
    have hptsh : ((linspace 0 1 t.length).zip (t.reverse.map Real.log)).head?
        = some (0, Real.log (t.getLast ht)) := zip_head? _ _ _ _ hxsh hysh
    have hptsl : ((linspace 0 1 t.length).zip (t.reverse.map Real.log)).getLast?
        = some (((t.length - 1 : ℕ) : ℝ) / ((t.length : ℝ) - 1),
            Real.log (t.head ht)) :=
      zip_getLast?_of_length_eq _ _ (by rw [linspace_length, hlys]) _ _ hxsl hysl
    obtain ⟨p, rest, hpe⟩ : ∃ p rest,
        (linspace 0 1 t.length).zip (t.reverse.map Real.log) = p :: rest := by
      rcases hzz : (linspace 0 1 t.length).zip (t.reverse.map Real.log) with _ | ⟨p, rest⟩
      · rw [hzz] at hptsh
        simp at hptsh
      · exact ⟨p, rest, rfl⟩
    have hp : p = (0, Real.log (t.getLast ht)) := by
      rw [hpe, List.head?_cons] at hptsh
      exact Option.some.inj hptsh
    have hval0 : interpPt ((linspace 0 1 t.length).zip (t.reverse.map Real.log)) 0
        = Real.log (t.getLast ht) := by
      rw [hpe, hp]
      exact interpPt_at_left _ _ _ _ (le_refl 0)
    have hval1 : interpPt ((linspace 0 1 t.length).zip (t.reverse.map Real.log)) 1
        = Real.log (t.head ht) := by
      rw [hpe] at hptsl hpts
      rw [hpe]
      obtain ⟨px, py⟩ := p
      exact (interpPt_at_right rest px py hpts _ _ hptsl).2 1 (ratio_last_le_one _ hn1)
    constructor
    · rw [hunfold, List.head?_reverse, List.getLast?_map, List.getLast?_map,
        linspace01_getLast? m hm]
      simp only [Option.map_some']
      rw [hval1, Real.exp_log (hpos _ (List.head_mem ht)), List.head?_eq_head ht]
    · rw [hunfold, List.getLast?_reverse, List.head?_map, List.head?_map,
        linspace01_head? m (by omega)]
      simp only [Option.map_some']
      rw [hval0, Real.exp_log (hpos _ (List.getLast_mem ht)), List.getLast?_eq_getLast t ht]

/-- C2 counterexample: for the strictly decreasing positive input `[2, 1]`
and requested count `1`, the single output element is the input's last
element `1`, not its first element `2` — the new one-point grid contains
only the old grid's left extreme, so the endpoints are not reproduced. -/
theorem loglinear_interp_count_one_cex :
    loglinear_interp [2, 1] 1 = [1] ∧
    ([2, 1] : List ℝ).head? = some 2 ∧ (1 : ℝ) ≠ 2 := by
  refine ⟨?_, by simp, by norm_num⟩
  rw [show loglinear_interp [2, 1] 1 =
      (((linspace 0 1 1).map
        (interpPt ((linspace 0 1 2).zip (([2, 1] : List ℝ).reverse.map Real.log)))).map
        Real.exp).reverse from rfl]
  rw [show linspace 0 1 1 = [0] from by
    rw [linspace]
    norm_num [List.range_succ, List.range_zero]]
  rw [show linspace 0 1 2 = [0, 1] from by
    rw [linspace]
    norm_num [List.range_succ, List.range_zero]]
  rw [show ([2, 1] : List ℝ).reverse = [1, 2] from rfl]
  simp [List.zip_cons_cons, interpPt, Real.log_one, Real.exp_zero]

/-- C2 witness: for input `[2, 1]` and requested count `2` the output has
length 2, is non-increasing, and reproduces both endpoints. -/
theorem loglinear_interp_spec_witness :
    (([2, 1] : List ℝ) ≠ [] ∧ (∀ x ∈ ([2, 1] : List ℝ), 0 < x) ∧
      List.Chain' (· > ·) ([2, 1] : List ℝ)) ∧
    ((loglinear_interp [2, 1] 2).length = 2 ∧
      List.Chain' (· ≥ ·) (loglinear_interp [2, 1] 2) ∧
      (2 ≤ 2 →
        (loglinear_interp [2, 1] 2).head? = ([2, 1] : List ℝ).head? ∧
        (loglinear_interp [2, 1] 2).getLast? = ([2, 1] : List ℝ).getLast?)) := by
  have h1 : ([2, 1] : List ℝ) ≠ [] := by simp
  have h2 : ∀ x ∈ ([2, 1] : List ℝ), 0 < x := by
    intro x hx
    simp at hx
    rcases hx with h | h <;> rw [h] <;> norm_num
  have h3 : List.Chain' (· > ·) ([2, 1] : List ℝ) := by
    norm_num [List.chain'_cons]
  exact ⟨⟨h1, h2, h3⟩, loglinear_interp_spec [2, 1] 2 h1 h2 h3⟩
